import Mathlib

/-!
Verification of the permission-reconciliation module
(go/vt/mysqlctl/proto/permissions.go) and the serving-graph store
(go/vt/zktopo/serving_graph.go).

Go strings are compared byte-lexicographically; UTF-8 encoding preserves
codepoint order, so this agrees with Lean's lexicographic order on the
character list of a `String`.  The two instances below re-route the
decidability of the string order through the character-list order, which
the kernel can evaluate (the default `String` instances use an iterator
loop defined by well-founded recursion, which the kernel cannot reduce).
-/

instance (priority := 2000) strDecidableLT : DecidableRel ((· < ·) : String → String → Prop) :=
  fun s t => decidable_of_iff (s.toList < t.toList) String.lt_iff_toList_lt.symm

instance (priority := 2000) strDecidableLE : DecidableRel ((· ≤ ·) : String → String → Prop) :=
  fun s t => decidable_of_iff (s.toList ≤ t.toList) String.le_iff_toList_le.symm

/-! ### CRC-64 checksum

`hash/crc64` with the ISO polynomial, written bit-at-a-time.  Go's
implementation is table-driven; the table entry for a byte `b` is exactly
eight shift-and-conditionally-xor rounds applied to `b`, so the
table-driven per-byte step `tab[byte(crc)^b] ^ (crc >> 8)` equals eight
rounds applied to `crc ^ b`.  Machine `uint64` values are represented as
`Nat`; every operation below preserves `< 2^64`, so no masking is needed. -/

def crc64round (crc : Nat) : Nat :=
  if crc % 2 = 1 then (crc / 2) ^^^ 0xD800000000000000 else crc / 2

def crc64byte (crc b : Nat) : Nat :=
  crc64round (crc64round (crc64round (crc64round
    (crc64round (crc64round (crc64round (crc64round (crc ^^^ b % 256))))))))

def crc64 (s : String) : Nat :=
  (s.data.foldl (fun crc ch => crc64byte crc ch.toNat) 0xFFFFFFFFFFFFFFFF)
    ^^^ 0xFFFFFFFFFFFFFFFF

/-! ### Permission entries

`tabletmanagerdata` protobuf messages; the `Privileges` Go map is
modeled as an association list with unique keys (`privSet` removes any
previous binding before adding the new one, matching map assignment;
`privGet` is map access). Query field/value pairs arrive as a single
list of `(field name, value string)` pairs: the Go code walks a field
slice and a parallel value slice, and `sqltypes.Value.String()` is the
raw string of the value. -/

def privSet (m : List (String × String)) (k v : String) : List (String × String) :=
  m.filter (fun e => e.1 != k) ++ [(k, v)]

def privGet (m : List (String × String)) (k : String) : Option String :=
  match m with
  | [] => none
  | (k2, v) :: rest => if k2 = k then some v else privGet rest k

structure UserPermission where
  host : String
  user : String
  passwordChecksum : Nat
  privileges : List (String × String)
deriving DecidableEq, Repr

structure DbPermission where
  host : String
  db : String
  user : String
  privileges : List (String × String)
deriving DecidableEq, Repr

structure HostPermission where
  host : String
  db : String
  privileges : List (String × String)
deriving DecidableEq, Repr

structure Permissions where
  userPermissions : List UserPermission
  dbPermissions : List DbPermission
  hostPermissions : List HostPermission
deriving DecidableEq, Repr

/-- go: `sort.Strings`, ascending.  Insertion sort; on a total order this
is extensionally the unique ascending rearrangement. -/
def sortStrings (l : List String) : List String :=
  List.insertionSort (· ≤ ·) l

def printPrivileges (priv : List (String × String)) : String :=
  (sortStrings (priv.map Prod.fst)).foldl
    (fun result k => result ++ " " ++ k ++ "(" ++ (privGet priv k).getD "" ++ ")") ""

def userPermStep (up : UserPermission) (r : String × String) : UserPermission :=
  match r.1 with
  | "Host" => { up with host := r.2 }
  | "User" => { up with user := r.2 }
  | "Password" => { up with passwordChecksum := crc64 r.2 }
  | _ => { up with privileges := privSet up.privileges r.1 r.2 }

def NewUserPermission (rows : List (String × String)) : UserPermission :=
  rows.foldl userPermStep
    { host := "", user := "", passwordChecksum := 0, privileges := [] }

def UserPermissionPrimaryKey (up : UserPermission) : String :=
  up.host ++ ":" ++ up.user

def UserPermissionString (up : UserPermission) : String :=
  (if up.passwordChecksum = 0 then "UserPermission " ++ "NoPassword"
   else "UserPermission " ++ "PasswordChecksum(" ++ toString up.passwordChecksum ++ ")")
    ++ printPrivileges up.privileges

def dbPermStep (dp : DbPermission) (r : String × String) : DbPermission :=
  match r.1 with
  | "Host" => { dp with host := r.2 }
  | "Db" => { dp with db := r.2 }
  | "User" => { dp with user := r.2 }
  | _ => { dp with privileges := privSet dp.privileges r.1 r.2 }

def NewDbPermission (rows : List (String × String)) : DbPermission :=
  rows.foldl dbPermStep { host := "", db := "", user := "", privileges := [] }

def DbPermissionPrimaryKey (dp : DbPermission) : String :=
  dp.host ++ ":" ++ dp.db ++ ":" ++ dp.user

def DbPermissionString (dp : DbPermission) : String :=
  "DbPermission" ++ printPrivileges dp.privileges

def hostPermStep (hp : HostPermission) (r : String × String) : HostPermission :=
  match r.1 with
  | "Host" => { hp with host := r.2 }
  | "Db" => { hp with db := r.2 }
  | _ => { hp with privileges := privSet hp.privileges r.1 r.2 }

def NewHostPermission (rows : List (String × String)) : HostPermission :=
  rows.foldl hostPermStep { host := "", db := "", privileges := [] }

def HostPermissionPrimaryKey (hp : HostPermission) : String :=
  hp.host ++ ":" ++ hp.db

def HostPermissionString (hp : HostPermission) : String :=
  "HostPermission" ++ printPrivileges hp.privileges

/-! ### Permission lists

`permissionList.Get i` returns the primary key and the rendered string of
the i-th entry; a list is embedded as the list of those pairs. -/

abbrev Entry := String × String

def userEntries (l : List UserPermission) : List Entry :=
  l.map (fun u => (UserPermissionPrimaryKey u, UserPermissionString u))

def dbEntries (l : List DbPermission) : List Entry :=
  l.map (fun d => (DbPermissionPrimaryKey d, DbPermissionString d))

def hostEntries (l : List HostPermission) : List Entry :=
  l.map (fun h => (HostPermissionPrimaryKey h, HostPermissionString h))

def printPermissions (name : String) (permissions : List Entry) : String :=
  permissions.foldl
    (fun result e => result ++ "  " ++ e.1 ++ ": " ++ e.2 ++ "\n")
    (name ++ " Permissions:\n")

def PermissionsString (permissions : Permissions) : String :=
  printPermissions "User" (userEntries permissions.userPermissions) ++
  printPermissions "Db" (dbEntries permissions.dbPermissions) ++
  printPermissions "Host" (hostEntries permissions.hostPermissions)

/-! ### Diffing

`diffPermissions` walks both lists with the two-cursor merge and records
one message per mismatch into the error recorder; the recorder
(`concurrency.AllErrorRecorder`, outside this package) is modeled as the
list of recorded message strings in recording order.  The merge is
embedded as a function returning that list. -/

def diffPerms (name leftName rightName : String) :
    List Entry → List Entry → List String
  | [], [] => []
  | [], (rpk, _) :: rs =>
    (rightName ++ " has an extra " ++ name ++ " " ++ rpk) ::
      diffPerms name leftName rightName [] rs
  | (lpk, _) :: ls, [] =>
    (leftName ++ " has an extra " ++ name ++ " " ++ lpk) ::
      diffPerms name leftName rightName ls []
  | (lpk, lval) :: ls, (rpk, rval) :: rs =>
    if lpk < rpk then
      (leftName ++ " has an extra " ++ name ++ " " ++ lpk) ::
        diffPerms name leftName rightName ls ((rpk, rval) :: rs)
    else if lpk > rpk then
      (rightName ++ " has an extra " ++ name ++ " " ++ rpk) ::
        diffPerms name leftName rightName ((lpk, lval) :: ls) rs
    else if lval ≠ rval then
      (leftName ++ " and " ++ rightName ++ " disagree on " ++ name ++ " " ++ lpk
          ++ ":\n" ++ lval ++ "\n differs from:\n" ++ rval) ::
        diffPerms name leftName rightName ls rs
    else diffPerms name leftName rightName ls rs
termination_by l r => l.length + r.length

def DiffPermissions (leftName : String) (left : Permissions)
    (rightName : String) (right : Permissions) : List String :=
  diffPerms "user" leftName rightName
      (userEntries left.userPermissions) (userEntries right.userPermissions) ++
  diffPerms "db" leftName rightName
      (dbEntries left.dbPermissions) (dbEntries right.dbPermissions) ++
  diffPerms "host" leftName rightName
      (hostEntries left.hostPermissions) (hostEntries right.hostPermissions)

def DiffPermissionsToArray (leftName : String) (left : Permissions)
    (rightName : String) (right : Permissions) : Option (List String) :=
  let er := DiffPermissions leftName left rightName right
  if er = [] then none else some er

/-! ### Structured view of the diff output

One constructor per kind of recorded mismatch; `diffRecs` is the same
merge producing structured records, and `renderRecord` produces the
message text, so `diffPerms = map renderRecord (diffRecs)`. -/

inductive DiffRecord where
  | extraLeft (pk : String)
  | extraRight (pk : String)
  | mismatch (pk lval rval : String)
deriving DecidableEq, Repr

def renderRecord (name leftName rightName : String) : DiffRecord → String
  | .extraLeft pk => leftName ++ " has an extra " ++ name ++ " " ++ pk
  | .extraRight pk => rightName ++ " has an extra " ++ name ++ " " ++ pk
  | .mismatch pk lval rval =>
    leftName ++ " and " ++ rightName ++ " disagree on " ++ name ++ " " ++ pk
      ++ ":\n" ++ lval ++ "\n differs from:\n" ++ rval

def recKey : DiffRecord → String
  | .extraLeft pk => pk
  | .extraRight pk => pk
  | .mismatch pk _ _ => pk

def diffRecs : List Entry → List Entry → List DiffRecord
  | [], [] => []
  | [], (rpk, _) :: rs => .extraRight rpk :: diffRecs [] rs
  | (lpk, _) :: ls, [] => .extraLeft lpk :: diffRecs ls []
  | (lpk, lval) :: ls, (rpk, rval) :: rs =>
    if lpk < rpk then .extraLeft lpk :: diffRecs ls ((rpk, rval) :: rs)
    else if lpk > rpk then .extraRight rpk :: diffRecs ((lpk, lval) :: ls) rs
    else if lval ≠ rval then .mismatch lpk lval rval :: diffRecs ls rs
    else diffRecs ls rs
termination_by l r => l.length + r.length

abbrev SortedE (l : List Entry) : Prop :=
  l.Pairwise (fun a b => a.1 < b.1)

/-- The last value carried by a field of the given name, if any: Go's
loop assigns fields in order, so a later occurrence wins. -/
def lastField (rows : List (String × String)) (name : String) : Option String :=
  match rows with
  | [] => none
  | r :: rest =>
    match lastField rest name with
    | some v => some v
    | none => if r.1 = name then some r.2 else none

/-- The full specification of one `diffPermissions` run on two
primary-key-sorted lists, phrased on the structured records: membership
characterizations for the three record forms, strictly ascending record
keys, and no duplicate records. -/
def DiffOk (l r : List Entry) : Prop :=
  (∀ k, DiffRecord.extraLeft k ∈ diffRecs l r ↔
      (k ∈ l.map Prod.fst ∧ k ∉ r.map Prod.fst)) ∧
  (∀ k, DiffRecord.extraRight k ∈ diffRecs l r ↔
      (k ∈ r.map Prod.fst ∧ k ∉ l.map Prod.fst)) ∧
  (∀ k lv rv, DiffRecord.mismatch k lv rv ∈ diffRecs l r ↔
      ((k, lv) ∈ l ∧ (k, rv) ∈ r ∧ lv ≠ rv)) ∧
  ((diffRecs l r).map recKey).Pairwise (· < ·) ∧
  (diffRecs l r).Nodup

/-! ### Rendering per the specification text

A second rendering, written after the spec sentence "\x22<Kind>
Permissions:\n  <primaryKey>: <rendering>\n\x22 repeated per entry, kinds
emitted in fixed order User, Db, Host; rendering format
\x22<TypeLabel><space-separated name(value) pairs sorted by name>\x22",
to be compared with the code-derived `PermissionsString`. -/

def printPrivilegesSpec (priv : List (String × String)) : String :=
  String.join ((sortStrings (priv.map Prod.fst)).map
    (fun k => " " ++ k ++ "(" ++ (privGet priv k).getD "" ++ ")"))

def userLabelSpec (u : UserPermission) : String :=
  if u.passwordChecksum = 0 then "UserPermission " ++ "NoPassword"
  else "UserPermission " ++ "PasswordChecksum(" ++ toString u.passwordChecksum ++ ")"

def printPermissionsSpec (name : String) (entries : List Entry) : String :=
  name ++ " Permissions:\n"
    ++ String.join (entries.map (fun e => "  " ++ e.1 ++ ": " ++ e.2 ++ "\n"))

def permissionsStringSpec (p : Permissions) : String :=
  printPermissionsSpec "User"
      (p.userPermissions.map (fun u =>
        (UserPermissionPrimaryKey u, userLabelSpec u ++ printPrivilegesSpec u.privileges)))
  ++ printPermissionsSpec "Db"
      (p.dbPermissions.map (fun d =>
        (DbPermissionPrimaryKey d, "DbPermission" ++ printPrivilegesSpec d.privileges)))
  ++ printPermissionsSpec "Host"
      (p.hostPermissions.map (fun h =>
        (HostPermissionPrimaryKey h, "HostPermission" ++ printPrivilegesSpec h.privileges)))

/-! ### Serving-graph store (go/vt/zktopo/serving_graph.go)

The ZooKeeper client (`zconn`) is the external collaborator of section 6
of the spec: `get/set/delete/children`, each distinguishing a "path not
found" error from all other failures.  It is modeled as a finite node
map plus a set of paths on which round-trips fail for transport
reasons.  Paths are modeled as their component lists ("/zk/<cell>/vt"
becomes `["zk", cell, "vt"]`). -/

abbrev ZPath := List String

inductive ZKErr where
  | noNode
  | nodeExists
  | other (msg : String)
deriving DecidableEq, Repr

structure ZConn where
  nodes : List (ZPath × String)
  failing : List ZPath
deriving DecidableEq, Repr

def zfind : List (ZPath × String) → ZPath → Option String
  | [], _ => none
  | (q, d) :: rest, p => if q = p then some d else zfind rest p

def zerase (ns : List (ZPath × String)) (p : ZPath) : List (ZPath × String) :=
  ns.filter (fun e => e.1 != p)

def zkGet (c : ZConn) (p : ZPath) : Except ZKErr String :=
  if p ∈ c.failing then .error (.other "transport")
  else match zfind c.nodes p with
    | some d => .ok d
    | none => .error .noNode

def zkSet (c : ZConn) (p : ZPath) (d : String) : Except ZKErr ZConn :=
  if p ∈ c.failing then .error (.other "transport")
  else match zfind c.nodes p with
    | some _ => .ok { c with nodes := (p, d) :: zerase c.nodes p }
    | none => .error .noNode

def stripChild : ZPath → ZPath → Option String
  | [], [x] => some x
  | a :: p, b :: q => if a = b then stripChild p q else none
  | _, _ => none

def zkChildren (c : ZConn) (p : ZPath) : Except ZKErr (List String) :=
  if p ∈ c.failing then .error (.other "transport")
  else match zfind c.nodes p with
    | some _ => .ok (c.nodes.filterMap (fun e => stripChild p e.1))
    | none => .error .noNode

def zkDelete (c : ZConn) (p : ZPath) : Except ZKErr ZConn :=
  if p ∈ c.failing then .error (.other "transport")
  else match zfind c.nodes p with
    | some _ => .ok { c with nodes := zerase c.nodes p }
    | none => .error .noNode

def ancestorPaths (p : ZPath) : List ZPath :=
  (List.range p.length).map (fun i => p.take i)

def addAncestors (ns : List (ZPath × String)) (p : ZPath) : List (ZPath × String) :=
  (ancestorPaths p).foldl
    (fun acc q =>
      match zfind acc q with
      | some _ => acc
      | none => (q, "") :: acc) ns

/-- Modelled from the spec: `zk.CreateRecursive` (package go/zk, outside
the two source files) creates the node with the given data, auto-vivifying
any missing parent namespaces; creation of an already-existing node fails
with the client's "node exists" error, and a failing path fails like any
other round-trip. -/
def zkCreateRecursive (c : ZConn) (p : ZPath) (d : String) : Except ZKErr ZConn :=
  if p ∈ c.failing then .error (.other "transport")
  else match zfind c.nodes p with
    | some _ => .error .nodeExists
    | none => .ok { c with nodes := (p, d) :: addAncestors c.nodes p }

inductive TopoError where
  | noNode
  | unmarshalFailed (data : String)
  | other (msg : String)
deriving DecidableEq, Repr

/-- Modelled from the spec: `convertError` (package zktopo, outside the
two source files) maps the client's "path not found" error to the store's
distinguished not-found value (`topo.ErrNoNode`) and passes every other
failure through as a generic store error. -/
def convertError : ZKErr → TopoError
  | .noNode => .noNode
  | .nodeExists => .other "node exists"
  | .other msg => .other msg

structure SrvKeyspace where
  shardCount : Nat
deriving DecidableEq, Repr

structure SrvVSchema where
  ruleCount : Nat
deriving DecidableEq, Repr

/-- Modelled from the spec: `json.MarshalIndent` is out of scope beyond
"structured, human-diffable serialization", so serialization is modeled
as a deterministic, injective, never-empty brace-delimited rendering
with `srvKeyspaceUnmarshal` as its partial inverse (any string that is
not of this shape fails to deserialize). -/
def srvKeyspaceMarshal (s : SrvKeyspace) : String :=
  String.mk ('\x7b' :: (List.replicate s.shardCount 'x' ++ ['\x7d']))

def parseBody (fill : Char) : List Char → Option Nat
  | ['\x7d'] => some 0
  | c :: rest => if c = fill then (parseBody fill rest).map (· + 1) else none
  | _ => none

def srvKeyspaceUnmarshal (d : String) : Option SrvKeyspace :=
  match d.data with
  | '\x7b' :: rest => (parseBody 'x' rest).map (fun n => ⟨n⟩)
  | _ => none

def srvVSchemaMarshal (s : SrvVSchema) : String :=
  String.mk ('\x7b' :: (List.replicate s.ruleCount 'v' ++ ['\x7d']))

def srvVSchemaUnmarshal (d : String) : Option SrvVSchema :=
  match d.data with
  | '\x7b' :: rest => (parseBody 'v' rest).map (fun n => ⟨n⟩)
  | _ => none

def zkPathForCell (cell : String) : ZPath := ["zk", cell, "vt"]

def zkPathForSrvKeyspaces (cell : String) : ZPath := zkPathForCell cell ++ ["ns"]

def zkPathForSrvKeyspace (cell keyspace : String) : ZPath :=
  zkPathForSrvKeyspaces cell ++ [keyspace]

def zkPathForSrvVSchema (cell : String) : ZPath := zkPathForCell cell ++ ["vschema"]

def GetSrvKeyspaceNames (c : ZConn) (cell : String) : Except TopoError (List String) :=
  match zkChildren c (zkPathForSrvKeyspaces cell) with
  | .ok children => .ok (sortStrings children)
  | .error .noNode => .ok []
  | .error e => .error (convertError e)

def UpdateSrvKeyspace (c : ZConn) (cell keyspace : String) (srvKeyspace : SrvKeyspace) :
    Except TopoError ZConn :=
  let data := srvKeyspaceMarshal srvKeyspace
  match zkSet c (zkPathForSrvKeyspace cell keyspace) data with
  | .ok c2 => .ok c2
  | .error .noNode =>
    match zkCreateRecursive c (zkPathForSrvKeyspace cell keyspace) data with
    | .ok c2 => .ok c2
    | .error e => .error (convertError e)
  | .error e => .error (convertError e)

def DeleteSrvKeyspace (c : ZConn) (cell keyspace : String) : Except TopoError ZConn :=
  match zkDelete c (zkPathForSrvKeyspace cell keyspace) with
  | .ok c2 => .ok c2
  | .error e => .error (convertError e)

def GetSrvKeyspace (c : ZConn) (cell keyspace : String) : Except TopoError SrvKeyspace :=
  match zkGet c (zkPathForSrvKeyspace cell keyspace) with
  | .error e => .error (convertError e)
  | .ok data =>
    if data.length = 0 then .error .noNode
    else
      match srvKeyspaceUnmarshal data with
      | none => .error (.unmarshalFailed data)
      | some sk => .ok sk

def UpdateSrvVSchema (c : ZConn) (cell : String) (srvVSchema : SrvVSchema) :
    Except TopoError ZConn :=
  let data := srvVSchemaMarshal srvVSchema
  match zkSet c (zkPathForSrvVSchema cell) data with
  | .ok c2 => .ok c2
  | .error .noNode =>
    match zkCreateRecursive c (zkPathForSrvVSchema cell) data with
    | .ok c2 => .ok c2
    | .error e => .error (convertError e)
  | .error e => .error (convertError e)

def GetSrvVSchema (c : ZConn) (cell : String) : Except TopoError SrvVSchema :=
  match zkGet c (zkPathForSrvVSchema cell) with
  | .error e => .error (convertError e)
  | .ok data =>
    if data.length = 0 then .error .noNode
    else
      match srvVSchemaUnmarshal data with
      | none => .error (.unmarshalFailed data)
      | some sv => .ok sv

/-- The branch behavior of `GetSrvKeyspace` and `GetSrvVSchema` on a
working path: absent node and present-but-empty value both give the
distinguished not-found error, undeserializable content gives a
deserialization error distinct from not-found, and well-formed content
deserializes. -/
def SrvGetSpec (c : ZConn) (cell keyspace : String) : Prop :=
  (zfind c.nodes (zkPathForSrvKeyspace cell keyspace) = none →
    GetSrvKeyspace c cell keyspace = .error .noNode) ∧
  (zfind c.nodes (zkPathForSrvKeyspace cell keyspace) = some "" →
    GetSrvKeyspace c cell keyspace = .error .noNode) ∧
  (∀ d, zfind c.nodes (zkPathForSrvKeyspace cell keyspace) = some d → d ≠ "" →
    srvKeyspaceUnmarshal d = none →
    GetSrvKeyspace c cell keyspace = .error (.unmarshalFailed d)
      ∧ TopoError.unmarshalFailed d ≠ TopoError.noNode) ∧
  (∀ d sk, zfind c.nodes (zkPathForSrvKeyspace cell keyspace) = some d → d ≠ "" →
    srvKeyspaceUnmarshal d = some sk →
    GetSrvKeyspace c cell keyspace = .ok sk) ∧
  (zfind c.nodes (zkPathForSrvVSchema cell) = none →
    GetSrvVSchema c cell = .error .noNode) ∧
  (zfind c.nodes (zkPathForSrvVSchema cell) = some "" →
    GetSrvVSchema c cell = .error .noNode) ∧
  (∀ d, zfind c.nodes (zkPathForSrvVSchema cell) = some d → d ≠ "" →
    srvVSchemaUnmarshal d = none →
    GetSrvVSchema c cell = .error (.unmarshalFailed d)
      ∧ TopoError.unmarshalFailed d ≠ TopoError.noNode) ∧
  (∀ d sv, zfind c.nodes (zkPathForSrvVSchema cell) = some d → d ≠ "" →
    srvVSchemaUnmarshal d = some sv →
    GetSrvVSchema c cell = .ok sv)

/-! ### Concrete values used by the witnesses -/

def exUserA : UserPermission := ⟨"h1", "u1", 0, [("Select_priv", "Y")]⟩

def exUserB : UserPermission := ⟨"h2", "u2", 0, []⟩

def exPermsL : Permissions := ⟨[exUserA], [⟨"h", "d", "u", []⟩], [⟨"h", "d", []⟩]⟩

def exPermsR : Permissions :=
  ⟨[exUserA, exUserB], [⟨"h", "d", "u", [("Insert_priv", "N")]⟩], []⟩

def exUserAA : UserPermission := ⟨"a", "a", 0, []⟩

def exUserBB : UserPermission := ⟨"b", "b", 0, []⟩

def exPermsBA : Permissions := ⟨[exUserBB, exUserAA], [], []⟩

def exPermsAB : Permissions := ⟨[exUserAA, exUserBB], [], []⟩

def exRowsP1 : List (String × String) := [("Host", "h"), ("Password", "secret")]

def exRowsP2 : List (String × String) := [("Password", "secret"), ("User", "u")]

def exRowsNoP : List (String × String) := [("Host", "h"), ("Select_priv", "Y")]

def exRowsU : List (String × String) :=
  [("Host", "h"), ("User", "u"), ("Password", "p"), ("Select_priv", "Y")]

def exRowsD : List (String × String) :=
  [("Host", "h"), ("Db", "d"), ("User", "u"), ("Insert_priv", "N")]

def exRowsH : List (String × String) :=
  [("Host", "h"), ("Db", "d"), ("Create_priv", "Y")]

def exConnTax : ZConn :=
  ⟨[(zkPathForSrvKeyspace "c1" "empty", ""),
    (zkPathForSrvKeyspace "c1" "bad", "garbage"),
    (zkPathForSrvKeyspace "c1" "good", srvKeyspaceMarshal ⟨2⟩),
    (zkPathForSrvVSchema "c1", "garbage")], []⟩

def exConnEmpty : ZConn := ⟨[], []⟩

def exConnNames : ZConn :=
  ⟨[(zkPathForSrvKeyspaces "c1", ""),
    (zkPathForSrvKeyspace "c1" "a", "x"),
    (zkPathForSrvKeyspace "c1" "c", "x"),
    (zkPathForSrvKeyspace "c1" "b", "x")], []⟩

def exConnDown : ZConn := ⟨[], [zkPathForSrvKeyspaces "c1"]⟩

def exConnUpd : ZConn :=
  ⟨[(zkPathForSrvKeyspace "c1" "ks", srvKeyspaceMarshal ⟨2⟩),
    (zkPathForSrvKeyspaces "c1", ""),
    (zkPathForCell "c1", ""),
    (["zk", "c1"], ""),
    (["zk"], ""),
    ([], "")], []⟩

def exConnDel : ZConn :=
  ⟨[(zkPathForSrvKeyspaces "c1", ""),
    (zkPathForCell "c1", ""),
    (["zk", "c1"], ""),
    (["zk"], ""),
    ([], "")], []⟩

/-! ## Sorted-merge lemmas for the differ -/

theorem sortedE_head_lt {e : Entry} {l : List Entry} (h : SortedE (e :: l)) :
    ∀ x ∈ l, e.1 < x.1 := (List.pairwise_cons.mp h).1

theorem sortedE_tail {e : Entry} {l : List Entry} (h : SortedE (e :: l)) : SortedE l :=
  (List.pairwise_cons.mp h).2

theorem lt_of_lt_head {e : Entry} {l : List Entry} (h : SortedE (e :: l))
    {k x : String} (hk : k < e.1) (hx : x ∈ (e :: l).map Prod.fst) : k < x := by
  rcases List.mem_map.mp hx with ⟨y, hy, rfl⟩
  rcases List.mem_cons.mp hy with rfl | hy
  · exact hk
  · exact hk.trans (sortedE_head_lt h y hy)

theorem not_mem_keys_of_lt_head {e : Entry} {l : List Entry} (h : SortedE (e :: l))
    {k : String} (hk : k < e.1) : k ∉ (e :: l).map Prod.fst := fun hmem =>
  absurd (lt_of_lt_head h hk hmem) (lt_irrefl k)

theorem head_not_mem_tail_keys {e : Entry} {l : List Entry} (h : SortedE (e :: l)) :
    e.1 ∉ l.map Prod.fst := by
  intro hmem
  rcases List.mem_map.mp hmem with ⟨y, hy, hEq⟩
  exact absurd (hEq ▸ sortedE_head_lt h y hy) (lt_irrefl e.1)

theorem fst_mem_of_mem {k v : String} {l : List Entry} (h : (k, v) ∈ l) :
    k ∈ l.map Prod.fst := List.mem_map_of_mem Prod.fst h

theorem head_lt_keys {e : Entry} {l : List Entry} (h : SortedE (e :: l)) {x : String}
    (hx : x ∈ l.map Prod.fst) : e.1 < x := by
  rcases List.mem_map.mp hx with ⟨y, hy, rfl⟩
  exact sortedE_head_lt h y hy

theorem extraLeft_mem_diffRecs (k : String) : ∀ l r : List Entry, SortedE l → SortedE r →
    (DiffRecord.extraLeft k ∈ diffRecs l r ↔
      k ∈ l.map Prod.fst ∧ k ∉ r.map Prod.fst) := by
  intro l r
  induction l, r using diffRecs.induct with
  | case1 => simp [diffRecs]
  | case2 rpk rv rs ih =>
    intro hl hr
    simp [diffRecs, ih hl (sortedE_tail hr)]
  | case3 lpk lv ls ih =>
    intro hl hr
    simp only [diffRecs, List.mem_cons, DiffRecord.extraLeft.injEq,
      ih (sortedE_tail hl) hr, List.map_cons, List.map_nil, List.not_mem_nil,
      not_false_iff, and_true]
  | case4 lpk lv ls rpk rv rs h ih =>
    intro hl hr
    have hnr : ¬(lpk = rpk ∨ lpk ∈ rs.map Prod.fst) := by
      simpa using not_mem_keys_of_lt_head hr h
    simp only [diffRecs, if_pos h, List.mem_cons, DiffRecord.extraLeft.injEq,
      ih (sortedE_tail hl) hr, List.map_cons]
    aesop
  | case5 lpk lv ls rpk rv rs h1 h2 ih =>
    intro hl hr
    have hnl : ¬(rpk = lpk ∨ rpk ∈ ls.map Prod.fst) := by
      simpa using not_mem_keys_of_lt_head hl h2
    simp only [diffRecs, if_neg h1, if_pos h2, List.mem_cons,
      ih hl (sortedE_tail hr), List.map_cons, reduceCtorEq, false_or]
    aesop
  | case6 lpk lv ls rpk rv rs h1 h2 h3 ih =>
    intro hl hr
    have heq : lpk = rpk := le_antisymm (not_lt.mp h2) (not_lt.mp h1)
    subst heq
    have hls : lpk ∉ ls.map Prod.fst := head_not_mem_tail_keys hl
    have hrs : lpk ∉ rs.map Prod.fst := head_not_mem_tail_keys hr
    simp only [diffRecs, if_neg h1, if_neg h2, if_pos h3, List.mem_cons,
      ih (sortedE_tail hl) (sortedE_tail hr), List.map_cons, reduceCtorEq, false_or]
    aesop
  | case7 lpk lv ls rpk rv rs h1 h2 h3 ih =>
    intro hl hr
    have heq : lpk = rpk := le_antisymm (not_lt.mp h2) (not_lt.mp h1)
    subst heq
    have hls : lpk ∉ ls.map Prod.fst := head_not_mem_tail_keys hl
    simp only [diffRecs, if_neg h1, if_neg h2, if_neg h3,
      ih (sortedE_tail hl) (sortedE_tail hr), List.mem_cons, List.map_cons]
    aesop

theorem extraRight_mem_diffRecs (k : String) : ∀ l r : List Entry, SortedE l → SortedE r →
    (DiffRecord.extraRight k ∈ diffRecs l r ↔
      k ∈ r.map Prod.fst ∧ k ∉ l.map Prod.fst) := by
  intro l r
  induction l, r using diffRecs.induct with
  | case1 => simp [diffRecs]
  | case2 rpk rv rs ih =>
    intro hl hr
    simp only [diffRecs, List.mem_cons, DiffRecord.extraRight.injEq,
      ih hl (sortedE_tail hr), List.map_cons, List.map_nil, List.not_mem_nil,
      not_false_iff, and_true]
  | case3 lpk lv ls ih =>
    intro hl hr
    simp [diffRecs, ih (sortedE_tail hl) hr]
  | case4 lpk lv ls rpk rv rs h ih =>
    intro hl hr
    have hnr : ¬(lpk = rpk ∨ lpk ∈ rs.map Prod.fst) := by
      simpa using not_mem_keys_of_lt_head hr h
    simp only [diffRecs, if_pos h, List.mem_cons, reduceCtorEq, false_or,
      ih (sortedE_tail hl) hr, List.map_cons]
    aesop
  | case5 lpk lv ls rpk rv rs h1 h2 ih =>
    intro hl hr
    have hnl : ¬(rpk = lpk ∨ rpk ∈ ls.map Prod.fst) := by
      simpa using not_mem_keys_of_lt_head hl h2
    simp only [diffRecs, if_neg h1, if_pos h2, List.mem_cons, DiffRecord.extraRight.injEq,
      ih hl (sortedE_tail hr), List.map_cons]
    aesop
  | case6 lpk lv ls rpk rv rs h1 h2 h3 ih =>
    intro hl hr
    have heq : lpk = rpk := le_antisymm (not_lt.mp h2) (not_lt.mp h1)
    subst heq
    have hls : lpk ∉ ls.map Prod.fst := head_not_mem_tail_keys hl
    have hrs : lpk ∉ rs.map Prod.fst := head_not_mem_tail_keys hr
    simp only [diffRecs, if_neg h1, if_neg h2, if_pos h3, List.mem_cons, reduceCtorEq,
      false_or, ih (sortedE_tail hl) (sortedE_tail hr), List.map_cons]
    aesop
  | case7 lpk lv ls rpk rv rs h1 h2 h3 ih =>
    intro hl hr
    have heq : lpk = rpk := le_antisymm (not_lt.mp h2) (not_lt.mp h1)
    subst heq
    have hrs : lpk ∉ rs.map Prod.fst := head_not_mem_tail_keys hr
    simp only [diffRecs, if_neg h1, if_neg h2, if_neg h3,
      ih (sortedE_tail hl) (sortedE_tail hr), List.mem_cons, List.map_cons]
    aesop

theorem mismatch_mem_diffRecs (k lv rv : String) :
    ∀ l r : List Entry, SortedE l → SortedE r →
    (DiffRecord.mismatch k lv rv ∈ diffRecs l r ↔
      ((k, lv) ∈ l ∧ (k, rv) ∈ r ∧ lv ≠ rv)) := by
  intro l r
  induction l, r using diffRecs.induct with
  | case1 => simp [diffRecs]
  | case2 rpk rv2 rs ih =>
    intro hl hr
    simp [diffRecs, ih hl (sortedE_tail hr)]
  | case3 lpk lv2 ls ih =>
    intro hl hr
    simp [diffRecs, ih (sortedE_tail hl) hr]
  | case4 lpk lval ls rpk rval rs h ih =>
    intro hl hr
    have hnr : ¬(lpk = rpk ∨ lpk ∈ rs.map Prod.fst) := by
      simpa using not_mem_keys_of_lt_head hr h
    have hbr : ∀ v, (k, v) ∈ rs → k ∈ rs.map Prod.fst := fun _ hv => fst_mem_of_mem hv
    simp only [diffRecs, if_pos h, List.mem_cons, reduceCtorEq, false_or,
      ih (sortedE_tail hl) hr, List.map_cons, Prod.mk.injEq]
    aesop
  | case5 lpk lval ls rpk rval rs h1 h2 ih =>
    intro hl hr
    have hnl : ¬(rpk = lpk ∨ rpk ∈ ls.map Prod.fst) := by
      simpa using not_mem_keys_of_lt_head hl h2
    have hbl : ∀ v, (k, v) ∈ ls → k ∈ ls.map Prod.fst := fun _ hv => fst_mem_of_mem hv
    simp only [diffRecs, if_neg h1, if_pos h2, List.mem_cons, reduceCtorEq, false_or,
      ih hl (sortedE_tail hr), List.map_cons, Prod.mk.injEq]
    aesop
  | case6 lpk lval ls rpk rval rs h1 h2 h3 ih =>
    intro hl hr
    have heq : lpk = rpk := le_antisymm (not_lt.mp h2) (not_lt.mp h1)
    subst heq
    have hls : lpk ∉ ls.map Prod.fst := head_not_mem_tail_keys hl
    have hrs : lpk ∉ rs.map Prod.fst := head_not_mem_tail_keys hr
    have hbl : ∀ v, (k, v) ∈ ls → k ∈ ls.map Prod.fst := fun _ hv => fst_mem_of_mem hv
    have hbr : ∀ v, (k, v) ∈ rs → k ∈ rs.map Prod.fst := fun _ hv => fst_mem_of_mem hv
    simp only [diffRecs, if_neg h1, if_neg h2, if_pos h3, List.mem_cons,
      DiffRecord.mismatch.injEq, ih (sortedE_tail hl) (sortedE_tail hr),
      List.map_cons, Prod.mk.injEq]
    aesop
  | case7 lpk lval ls rpk rval rs h1 h2 h3 ih =>
    intro hl hr
    have heq : lpk = rpk := le_antisymm (not_lt.mp h2) (not_lt.mp h1)
    subst heq
    have hval : lval = rval := not_not.mp h3
    have hls : lpk ∉ ls.map Prod.fst := head_not_mem_tail_keys hl
    have hrs : lpk ∉ rs.map Prod.fst := head_not_mem_tail_keys hr
    have hbl : ∀ v, (k, v) ∈ ls → k ∈ ls.map Prod.fst := fun _ hv => fst_mem_of_mem hv
    have hbr : ∀ v, (k, v) ∈ rs → k ∈ rs.map Prod.fst := fun _ hv => fst_mem_of_mem hv
    simp only [diffRecs, if_neg h1, if_neg h2, if_neg h3,
      ih (sortedE_tail hl) (sortedE_tail hr), List.mem_cons, List.map_cons,
      Prod.mk.injEq]
    aesop

theorem recKey_mem_diffRecs : ∀ l r : List Entry, ∀ d ∈ diffRecs l r,
    recKey d ∈ l.map Prod.fst ∨ recKey d ∈ r.map Prod.fst := by
  intro l r
  induction l, r using diffRecs.induct with
  | case1 => simp [diffRecs]
  | case2 rpk rv rs ih => simp_all [diffRecs, recKey]
  | case3 lpk lv ls ih => simp_all [diffRecs, recKey]
  | case4 lpk lv ls rpk rv rs h ih =>
    intro d hd
    rw [show diffRecs ((lpk, lv) :: ls) ((rpk, rv) :: rs)
        = .extraLeft lpk :: diffRecs ls ((rpk, rv) :: rs) by simp [diffRecs, h]] at hd
    rcases List.mem_cons.mp hd with rfl | hd
    · simp [recKey]
    · rcases ih d hd with hm | hm
      · exact Or.inl (by simp; exact Or.inr (by simpa using hm))
      · exact Or.inr hm
  | case5 lpk lv ls rpk rv rs h1 h2 ih =>
    intro d hd
    rw [show diffRecs ((lpk, lv) :: ls) ((rpk, rv) :: rs)
        = .extraRight rpk :: diffRecs ((lpk, lv) :: ls) rs by simp [diffRecs, h1, h2]] at hd
    rcases List.mem_cons.mp hd with rfl | hd
    · simp [recKey]
    · rcases ih d hd with hm | hm
      · exact Or.inl hm
      · exact Or.inr (by simp; exact Or.inr (by simpa using hm))
  | case6 lpk lv ls rpk rv rs h1 h2 h3 ih =>
    intro d hd
    rw [show diffRecs ((lpk, lv) :: ls) ((rpk, rv) :: rs)
        = .mismatch lpk lv rv :: diffRecs ls rs by simp [diffRecs, h1, h2, h3]] at hd
    rcases List.mem_cons.mp hd with rfl | hd
    · simp [recKey]
    · rcases ih d hd with hm | hm
      · exact Or.inl (by simp; exact Or.inr (by simpa using hm))
      · exact Or.inr (by simp; exact Or.inr (by simpa using hm))
  | case7 lpk lv ls rpk rv rs h1 h2 h3 ih =>
    intro d hd
    rw [show diffRecs ((lpk, lv) :: ls) ((rpk, rv) :: rs)
        = diffRecs ls rs by simp [diffRecs, h1, h2, h3]] at hd
    rcases ih d hd with hm | hm
    · exact Or.inl (by simp; exact Or.inr (by simpa using hm))
    · exact Or.inr (by simp; exact Or.inr (by simpa using hm))

theorem diffRecs_keys_pairwise : ∀ l r : List Entry, SortedE l → SortedE r →
    ((diffRecs l r).map recKey).Pairwise (· < ·) := by
  intro l r
  induction l, r using diffRecs.induct with
  | case1 => simp [diffRecs]
  | case2 rpk rv rs ih =>
    intro hl hr
    rw [show diffRecs [] ((rpk, rv) :: rs) = .extraRight rpk :: diffRecs [] rs from by
      simp [diffRecs]]
    rw [List.map_cons, List.pairwise_cons]
    refine ⟨fun x hx => ?_, ih hl (sortedE_tail hr)⟩
    rcases List.mem_map.mp hx with ⟨d, hd, rfl⟩
    rcases recKey_mem_diffRecs _ _ d hd with hm | hm
    · simp at hm
    · exact head_lt_keys hr hm
  | case3 lpk lv ls ih =>
    intro hl hr
    rw [show diffRecs ((lpk, lv) :: ls) [] = .extraLeft lpk :: diffRecs ls [] from by
      simp [diffRecs]]
    rw [List.map_cons, List.pairwise_cons]
    refine ⟨fun x hx => ?_, ih (sortedE_tail hl) hr⟩
    rcases List.mem_map.mp hx with ⟨d, hd, rfl⟩
    rcases recKey_mem_diffRecs _ _ d hd with hm | hm
    · exact head_lt_keys hl hm
    · simp at hm
  | case4 lpk lv ls rpk rv rs h ih =>
    intro hl hr
    rw [show diffRecs ((lpk, lv) :: ls) ((rpk, rv) :: rs)
        = .extraLeft lpk :: diffRecs ls ((rpk, rv) :: rs) from by simp [diffRecs, h]]
    rw [List.map_cons, List.pairwise_cons]
    refine ⟨fun x hx => ?_, ih (sortedE_tail hl) hr⟩
    rcases List.mem_map.mp hx with ⟨d, hd, rfl⟩
    rcases recKey_mem_diffRecs _ _ d hd with hm | hm
    · exact head_lt_keys hl hm
    · exact lt_of_lt_head hr h hm
  | case5 lpk lv ls rpk rv rs h1 h2 ih =>
    intro hl hr
    rw [show diffRecs ((lpk, lv) :: ls) ((rpk, rv) :: rs)
        = .extraRight rpk :: diffRecs ((lpk, lv) :: ls) rs from by simp [diffRecs, h1, h2]]
    rw [List.map_cons, List.pairwise_cons]
    refine ⟨fun x hx => ?_, ih hl (sortedE_tail hr)⟩
    rcases List.mem_map.mp hx with ⟨d, hd, rfl⟩
    rcases recKey_mem_diffRecs _ _ d hd with hm | hm
    · exact lt_of_lt_head hl h2 hm
    · exact head_lt_keys hr hm
  | case6 lpk lv ls rpk rv rs h1 h2 h3 ih =>
    intro hl hr
    have heq : lpk = rpk := le_antisymm (not_lt.mp h2) (not_lt.mp h1)
    subst heq
    rw [show diffRecs ((lpk, lv) :: ls) ((lpk, rv) :: rs)
        = .mismatch lpk lv rv :: diffRecs ls rs from by simp [diffRecs, h1, h2, h3]]
    rw [List.map_cons, List.pairwise_cons]
    refine ⟨fun x hx => ?_, ih (sortedE_tail hl) (sortedE_tail hr)⟩
    rcases List.mem_map.mp hx with ⟨d, hd, rfl⟩
    rcases recKey_mem_diffRecs _ _ d hd with hm | hm
    · exact head_lt_keys hl hm
    · exact head_lt_keys hr hm
  | case7 lpk lv ls rpk rv rs h1 h2 h3 ih =>
    intro hl hr
    rw [show diffRecs ((lpk, lv) :: ls) ((rpk, rv) :: rs)
        = diffRecs ls rs from by simp [diffRecs, h1, h2, h3]]
    exact ih (sortedE_tail hl) (sortedE_tail hr)

theorem diffRecs_nodup (l r : List Entry) (hl : SortedE l) (hr : SortedE r) :
    (diffRecs l r).Nodup := by
  have hp := diffRecs_keys_pairwise l r hl hr
  have hk : ((diffRecs l r).map recKey).Nodup := hp.imp ne_of_lt
  exact hk.of_map recKey

theorem diffPerms_eq_renderRecord (name leftName rightName : String) :
    ∀ l r : List Entry, diffPerms name leftName rightName l r
      = (diffRecs l r).map (renderRecord name leftName rightName) := by
  intro l r
  induction l, r using diffRecs.induct with
  | case1 => simp [diffPerms, diffRecs]
  | case2 rpk rv rs ih =>
    rw [show diffPerms name leftName rightName [] ((rpk, rv) :: rs)
        = (rightName ++ " has an extra " ++ name ++ " " ++ rpk) ::
          diffPerms name leftName rightName [] rs from by simp [diffPerms]]
    rw [show diffRecs [] ((rpk, rv) :: rs) = .extraRight rpk :: diffRecs [] rs from by
      simp [diffRecs]]
    simp [renderRecord, ih]
  | case3 lpk lv ls ih =>
    rw [show diffPerms name leftName rightName ((lpk, lv) :: ls) []
        = (leftName ++ " has an extra " ++ name ++ " " ++ lpk) ::
          diffPerms name leftName rightName ls [] from by simp [diffPerms]]
    rw [show diffRecs ((lpk, lv) :: ls) [] = .extraLeft lpk :: diffRecs ls [] from by
      simp [diffRecs]]
    simp [renderRecord, ih]
  | case4 lpk lv ls rpk rv rs h ih =>
    rw [show diffPerms name leftName rightName ((lpk, lv) :: ls) ((rpk, rv) :: rs)
        = (leftName ++ " has an extra " ++ name ++ " " ++ lpk) ::
          diffPerms name leftName rightName ls ((rpk, rv) :: rs) from by
      simp [diffPerms, h]]
    rw [show diffRecs ((lpk, lv) :: ls) ((rpk, rv) :: rs)
        = .extraLeft lpk :: diffRecs ls ((rpk, rv) :: rs) from by simp [diffRecs, h]]
    simp [renderRecord, ih]
  | case5 lpk lv ls rpk rv rs h1 h2 ih =>
    rw [show diffPerms name leftName rightName ((lpk, lv) :: ls) ((rpk, rv) :: rs)
        = (rightName ++ " has an extra " ++ name ++ " " ++ rpk) ::
          diffPerms name leftName rightName ((lpk, lv) :: ls) rs from by
      simp [diffPerms, h1, h2]]
    rw [show diffRecs ((lpk, lv) :: ls) ((rpk, rv) :: rs)
        = .extraRight rpk :: diffRecs ((lpk, lv) :: ls) rs from by simp [diffRecs, h1, h2]]
    simp [renderRecord, ih]
  | case6 lpk lv ls rpk rv rs h1 h2 h3 ih =>
    rw [show diffPerms name leftName rightName ((lpk, lv) :: ls) ((rpk, rv) :: rs)
        = (leftName ++ " and " ++ rightName ++ " disagree on " ++ name ++ " " ++ lpk
            ++ ":\n" ++ lv ++ "\n differs from:\n" ++ rv) ::
          diffPerms name leftName rightName ls rs from by simp [diffPerms, h1, h2, h3]]
    rw [show diffRecs ((lpk, lv) :: ls) ((rpk, rv) :: rs)
        = .mismatch lpk lv rv :: diffRecs ls rs from by simp [diffRecs, h1, h2, h3]]
    simp [renderRecord, ih]
  | case7 lpk lv ls rpk rv rs h1 h2 h3 ih =>
    rw [show diffPerms name leftName rightName ((lpk, lv) :: ls) ((rpk, rv) :: rs)
        = diffPerms name leftName rightName ls rs from by simp [diffPerms, h1, h2, h3]]
    rw [show diffRecs ((lpk, lv) :: ls) ((rpk, rv) :: rs) = diffRecs ls rs from by
      simp [diffRecs, h1, h2, h3]]
    exact ih

theorem diffOk_of_sorted (l r : List Entry) (hl : SortedE l) (hr : SortedE r) :
    DiffOk l r :=
  ⟨fun k => extraLeft_mem_diffRecs k l r hl hr,
   fun k => extraRight_mem_diffRecs k l r hl hr,
   fun k lv rv => mismatch_mem_diffRecs k lv rv l r hl hr,
   diffRecs_keys_pairwise l r hl hr,
   diffRecs_nodup l r hl hr⟩

/-- Claim C1: on snapshots whose six entry lists are each sorted in
strictly ascending primary-key order, `DiffPermissions` records, kind by
kind in the order user, db, host, exactly the rendered merge records:
one extra-entry record per key present on only one side, one
content-mismatch record (with both renderings verbatim) per key present
on both sides with differing rendered strings, nothing else, each
exactly once, in ascending primary-key order within each kind. -/
theorem diffPermissions_sorted_merge_correct (leftName rightName : String)
    (left right : Permissions)
    (hu1 : SortedE (userEntries left.userPermissions))
    (hu2 : SortedE (userEntries right.userPermissions))
    (hd1 : SortedE (dbEntries left.dbPermissions))
    (hd2 : SortedE (dbEntries right.dbPermissions))
    (hh1 : SortedE (hostEntries left.hostPermissions))
    (hh2 : SortedE (hostEntries right.hostPermissions)) :
    DiffPermissions leftName left rightName right
      = (diffRecs (userEntries left.userPermissions)
            (userEntries right.userPermissions)).map (renderRecord "user" leftName rightName)
        ++ (diffRecs (dbEntries left.dbPermissions)
            (dbEntries right.dbPermissions)).map (renderRecord "db" leftName rightName)
        ++ (diffRecs (hostEntries left.hostPermissions)
            (hostEntries right.hostPermissions)).map (renderRecord "host" leftName rightName)
    ∧ DiffOk (userEntries left.userPermissions) (userEntries right.userPermissions)
    ∧ DiffOk (dbEntries left.dbPermissions) (dbEntries right.dbPermissions)
    ∧ DiffOk (hostEntries left.hostPermissions) (hostEntries right.hostPermissions) := by
  refine ⟨?_, diffOk_of_sorted _ _ hu1 hu2, diffOk_of_sorted _ _ hd1 hd2,
    diffOk_of_sorted _ _ hh1 hh2⟩
  unfold DiffPermissions
  rw [diffPerms_eq_renderRecord, diffPerms_eq_renderRecord, diffPerms_eq_renderRecord]

theorem diffPermissions_sorted_merge_correct_witness :
    (SortedE (userEntries exPermsL.userPermissions)
      ∧ SortedE (userEntries exPermsR.userPermissions)
      ∧ SortedE (dbEntries exPermsL.dbPermissions)
      ∧ SortedE (dbEntries exPermsR.dbPermissions)
      ∧ SortedE (hostEntries exPermsL.hostPermissions)
      ∧ SortedE (hostEntries exPermsR.hostPermissions))
    ∧ (DiffPermissions "master" exPermsL "replica" exPermsR
        = (diffRecs (userEntries exPermsL.userPermissions)
              (userEntries exPermsR.userPermissions)).map (renderRecord "user" "master" "replica")
          ++ (diffRecs (dbEntries exPermsL.dbPermissions)
              (dbEntries exPermsR.dbPermissions)).map (renderRecord "db" "master" "replica")
          ++ (diffRecs (hostEntries exPermsL.hostPermissions)
              (hostEntries exPermsR.hostPermissions)).map (renderRecord "host" "master" "replica")
      ∧ DiffOk (userEntries exPermsL.userPermissions) (userEntries exPermsR.userPermissions)
      ∧ DiffOk (dbEntries exPermsL.dbPermissions) (dbEntries exPermsR.dbPermissions)
      ∧ DiffOk (hostEntries exPermsL.hostPermissions) (hostEntries exPermsR.hostPermissions)) :=
  ⟨⟨by decide, by decide, by decide, by decide, by decide, by decide⟩,
   diffPermissions_sorted_merge_correct "master" "replica" exPermsL exPermsR
     (by decide) (by decide) (by decide) (by decide) (by decide) (by decide)⟩

/-- Claim C2 (counterexample): two snapshots with the same entries in
different orders are reported as different — `DiffPermissionsToArray`
does not sort, so the order does matter. -/
theorem diffPermissionsToArray_order_counterexample :
    exPermsBA.userPermissions.Perm exPermsAB.userPermissions
    ∧ exPermsBA.dbPermissions = exPermsAB.dbPermissions
    ∧ exPermsBA.hostPermissions = exPermsAB.hostPermissions
    ∧ DiffPermissionsToArray "left" exPermsBA "right" exPermsAB ≠ none := by
  refine ⟨by decide, rfl, rfl, ?_⟩
  have h : DiffPermissions "left" exPermsBA "right" exPermsAB
      = ["right has an extra user a:a", "left has an extra user a:a"] := by
    simp +decide [DiffPermissions, diffPerms, userEntries, dbEntries, hostEntries,
      exPermsBA, exPermsAB, exUserAA, exUserBB, UserPermissionPrimaryKey,
      UserPermissionString, printPrivileges, sortStrings, privGet]
  simp [DiffPermissionsToArray, h]

theorem diffPerms_self (name leftName rightName : String) :
    ∀ e : List Entry, diffPerms name leftName rightName e e = []
  | [] => by simp [diffPerms]
  | (pk, v) :: es => by
    rw [show diffPerms name leftName rightName ((pk, v) :: es) ((pk, v) :: es)
        = diffPerms name leftName rightName es es from by simp [diffPerms]]
    exact diffPerms_self name leftName rightName es

/-- Claim C2 (amended): for equal snapshots — the same entries listed in
the same order on both sides — `DiffPermissionsToArray` reports no
mismatches. -/
theorem diffPermissionsToArray_refl (leftName rightName : String) (p : Permissions) :
    DiffPermissionsToArray leftName p rightName p = none := by
  have h : DiffPermissions leftName p rightName p = [] := by
    simp [DiffPermissions, diffPerms_self]
  simp [DiffPermissionsToArray, h]

/-- Claim C3: `DiffPermissionsToArray` is absent exactly when
`DiffPermissions` records nothing; otherwise it is the full ordered
recorded sequence, and it is never a present-but-empty sequence. -/
theorem diffPermissionsToArray_none_iff (leftName rightName : String)
    (left right : Permissions) :
    (DiffPermissionsToArray leftName left rightName right = none
      ↔ DiffPermissions leftName left rightName right = [])
    ∧ DiffPermissionsToArray leftName left rightName right ≠ some []
    ∧ (DiffPermissionsToArray leftName left rightName right = none
       ∨ DiffPermissionsToArray leftName left rightName right
          = some (DiffPermissions leftName left rightName right)) := by
  unfold DiffPermissionsToArray
  by_cases h : DiffPermissions leftName left rightName right = [] <;> simp [h]

theorem diffPermissionsToArray_none_iff_witness :
    (DiffPermissionsToArray "left" exPermsBA "right" exPermsAB = none
      ↔ DiffPermissions "left" exPermsBA "right" exPermsAB = [])
    ∧ DiffPermissionsToArray "left" exPermsBA "right" exPermsAB ≠ some []
    ∧ (DiffPermissionsToArray "left" exPermsBA "right" exPermsAB = none
       ∨ DiffPermissionsToArray "left" exPermsBA "right" exPermsAB
          = some (DiffPermissions "left" exPermsBA "right" exPermsAB)) :=
  diffPermissionsToArray_none_iff "left" "right" exPermsBA exPermsAB

/-! ## Constructor lemmas -/

theorem privGet_privSet (m : List (String × String)) (k v k2 : String) :
    privGet (privSet m k v) k2 = if k2 = k then some v else privGet m k2 := by
  induction m with
  | nil =>
    by_cases h : k2 = k
    · simp [privSet, privGet, h]
    · simp [privSet, privGet, h, Ne.symm h]
  | cons a m ih =>
    obtain ⟨an, av⟩ := a
    by_cases ha : an = k
    · subst ha
      by_cases h2 : k2 = an <;>
        simp_all [privSet, privGet, List.filter_cons, Ne.symm]
    · by_cases hak : an = k2 <;> by_cases h2 : k2 = k <;>
        simp_all [privSet, privGet, List.filter_cons, bne_iff_ne]

theorem privGet_eq_none_iff (m : List (String × String)) (k : String) :
    privGet m k = none ↔ k ∉ m.map Prod.fst := by
  induction m with
  | nil => simp [privGet]
  | cons a m ih =>
    obtain ⟨an, av⟩ := a
    by_cases h : an = k <;> simp_all [privGet, eq_comm]

theorem lastField_mem : ∀ {rows : List (String × String)} {k v : String},
    lastField rows k = some v → (k, v) ∈ rows := by
  intro rows
  induction rows with
  | nil => intro k v h; simp [lastField] at h
  | cons r rest ih =>
    intro k v h
    rw [lastField] at h
    cases hrest : lastField rest k with
    | some w =>
      rw [hrest] at h
      cases h
      exact List.mem_cons_of_mem _ (ih hrest)
    | none =>
      rw [hrest] at h
      by_cases hr : r.1 = k
      · rw [if_pos hr] at h
        injection h with hv
        have hre : r = (k, v) := by
          obtain ⟨r1, r2⟩ := r
          simp_all
        exact hre ▸ List.mem_cons_self r rest
      · rw [if_neg hr] at h
        simp at h

theorem lastField_isSome_of_mem : ∀ {rows : List (String × String)} {k : String},
    k ∈ rows.map Prod.fst → ∃ v, lastField rows k = some v := by
  intro rows
  induction rows with
  | nil => intro k h; simp at h
  | cons r rest ih =>
    intro k h
    rw [List.map_cons, List.mem_cons] at h
    rw [lastField]
    cases hrest : lastField rest k with
    | some w => exact ⟨w, rfl⟩
    | none =>
      rcases h with heq | hmem
      · exact ⟨r.2, by rw [if_pos heq.symm]⟩
      · obtain ⟨v, hv⟩ := ih hmem
        rw [hv] at hrest
        cases hrest

theorem lastField_eq_none_of_not_mem {rows : List (String × String)} {k : String}
    (h : k ∉ rows.map Prod.fst) : lastField rows k = none := by
  cases hlf : lastField rows k with
  | none => rfl
  | some v => exact absurd (fst_mem_of_mem (lastField_mem hlf)) h

theorem userPermStep_passwordChecksum (up : UserPermission) (r : String × String) :
    (userPermStep up r).passwordChecksum
      = if r.1 = "Password" then crc64 r.2 else up.passwordChecksum := by
  obtain ⟨rn, rv⟩ := r
  unfold userPermStep
  split <;> simp_all

theorem userPermStep_privileges (up : UserPermission) (r : String × String) :
    (userPermStep up r).privileges
      = if r.1 = "Host" ∨ r.1 = "User" ∨ r.1 = "Password" then up.privileges
        else privSet up.privileges r.1 r.2 := by
  obtain ⟨rn, rv⟩ := r
  unfold userPermStep
  split <;> simp_all

theorem foldl_userPermStep_checksum : ∀ (rows : List (String × String)) (up : UserPermission),
    (rows.foldl userPermStep up).passwordChecksum
      = (lastField rows "Password").elim up.passwordChecksum crc64 := by
  intro rows
  induction rows with
  | nil => intro up; simp [lastField]
  | cons r rest ih =>
    intro up
    rw [List.foldl_cons, ih, lastField]
    cases hrest : lastField rest "Password" with
    | some p => simp
    | none =>
      simp only [Option.elim, userPermStep_passwordChecksum]
      by_cases hp : r.1 = "Password" <;> simp [hp]

theorem foldl_userPermStep_privGet (k : String) (hk1 : k ≠ "Host") (hk2 : k ≠ "User")
    (hk3 : k ≠ "Password") : ∀ (rows : List (String × String)) (up : UserPermission),
    privGet ((rows.foldl userPermStep up).privileges) k
      = (lastField rows k).elim (privGet up.privileges k) some := by
  intro rows
  induction rows with
  | nil => intro up; simp [lastField]
  | cons r rest ih =>
    intro up
    rw [List.foldl_cons, ih, lastField]
    cases hrest : lastField rest k with
    | some p => simp
    | none =>
      simp only [Option.elim, userPermStep_privileges]
      by_cases hid : r.1 = "Host" ∨ r.1 = "User" ∨ r.1 = "Password"
      · have hrk : r.1 ≠ k := by
          rcases hid with h | h | h <;> rw [h] <;>
            [exact fun he => hk1 he.symm; exact fun he => hk2 he.symm;
             exact fun he => hk3 he.symm]
        simp [hid, hrk]
      · rw [if_neg hid, privGet_privSet]
        by_cases hrk : r.1 = k
        · simp [hrk]
        · have hkr : ¬k = r.1 := fun h => hrk h.symm
          simp [hrk, hkr]

theorem foldl_userPermStep_privGet_id (k : String)
    (hk : k = "Host" ∨ k = "User" ∨ k = "Password") :
    ∀ (rows : List (String × String)) (up : UserPermission),
    privGet ((rows.foldl userPermStep up).privileges) k = privGet up.privileges k := by
  intro rows
  induction rows with
  | nil => intro up; rfl
  | cons r rest ih =>
    intro up
    rw [List.foldl_cons, ih]
    rw [userPermStep_privileges]
    by_cases hid : r.1 = "Host" ∨ r.1 = "User" ∨ r.1 = "Password"
    · rw [if_pos hid]
    · rw [if_neg hid, privGet_privSet]
      have : k ≠ r.1 := by
        rcases hk with h | h | h <;> subst h <;> intro he <;> exact hid (by simp [he.symm])
      rw [if_neg this]

theorem dbPermStep_privileges (dp : DbPermission) (r : String × String) :
    (dbPermStep dp r).privileges
      = if r.1 = "Host" ∨ r.1 = "Db" ∨ r.1 = "User" then dp.privileges
        else privSet dp.privileges r.1 r.2 := by
  obtain ⟨rn, rv⟩ := r
  unfold dbPermStep
  split <;> simp_all

theorem hostPermStep_privileges (hp : HostPermission) (r : String × String) :
    (hostPermStep hp r).privileges
      = if r.1 = "Host" ∨ r.1 = "Db" then hp.privileges
        else privSet hp.privileges r.1 r.2 := by
  obtain ⟨rn, rv⟩ := r
  unfold hostPermStep
  split <;> simp_all

theorem foldl_dbPermStep_privGet (k : String) (hk1 : k ≠ "Host") (hk2 : k ≠ "Db")
    (hk3 : k ≠ "User") : ∀ (rows : List (String × String)) (dp : DbPermission),
    privGet ((rows.foldl dbPermStep dp).privileges) k
      = (lastField rows k).elim (privGet dp.privileges k) some := by
  intro rows
  induction rows with
  | nil => intro dp; simp [lastField]
  | cons r rest ih =>
    intro dp
    rw [List.foldl_cons, ih, lastField]
    cases hrest : lastField rest k with
    | some p => simp
    | none =>
      simp only [Option.elim, dbPermStep_privileges]
      by_cases hid : r.1 = "Host" ∨ r.1 = "Db" ∨ r.1 = "User"
      · have hrk : r.1 ≠ k := by
          rcases hid with h | h | h <;> rw [h] <;>
            [exact fun he => hk1 he.symm; exact fun he => hk2 he.symm;
             exact fun he => hk3 he.symm]
        simp [hid, hrk]
      · rw [if_neg hid, privGet_privSet]
        by_cases hrk : r.1 = k
        · simp [hrk]
        · have hkr : ¬k = r.1 := fun h => hrk h.symm
          simp [hrk, hkr]

theorem foldl_dbPermStep_privGet_id (k : String)
    (hk : k = "Host" ∨ k = "Db" ∨ k = "User") :
    ∀ (rows : List (String × String)) (dp : DbPermission),
    privGet ((rows.foldl dbPermStep dp).privileges) k = privGet dp.privileges k := by
  intro rows
  induction rows with
  | nil => intro dp; rfl
  | cons r rest ih =>
    intro dp
    rw [List.foldl_cons, ih]
    rw [dbPermStep_privileges]
    by_cases hid : r.1 = "Host" ∨ r.1 = "Db" ∨ r.1 = "User"
    · rw [if_pos hid]
    · rw [if_neg hid, privGet_privSet]
      have : k ≠ r.1 := by
        rcases hk with h | h | h <;> subst h <;> intro he <;> exact hid (by simp [he.symm])
      rw [if_neg this]

theorem foldl_hostPermStep_privGet (k : String) (hk1 : k ≠ "Host") (hk2 : k ≠ "Db") :
    ∀ (rows : List (String × String)) (hp : HostPermission),
    privGet ((rows.foldl hostPermStep hp).privileges) k
      = (lastField rows k).elim (privGet hp.privileges k) some := by
  intro rows
  induction rows with
  | nil => intro hp; simp [lastField]
  | cons r rest ih =>
    intro hp
    rw [List.foldl_cons, ih, lastField]
    cases hrest : lastField rest k with
    | some p => simp
    | none =>
      simp only [Option.elim, hostPermStep_privileges]
      by_cases hid : r.1 = "Host" ∨ r.1 = "Db"
      · have hrk : r.1 ≠ k := by
          rcases hid with h | h <;> rw [h] <;>
            [exact fun he => hk1 he.symm; exact fun he => hk2 he.symm]
        simp [hid, hrk]
      · rw [if_neg hid, privGet_privSet]
        by_cases hrk : r.1 = k
        · simp [hrk]
        · have hkr : ¬k = r.1 := fun h => hrk h.symm
          simp [hrk, hkr]

theorem foldl_hostPermStep_privGet_id (k : String)
    (hk : k = "Host" ∨ k = "Db") :
    ∀ (rows : List (String × String)) (hp : HostPermission),
    privGet ((rows.foldl hostPermStep hp).privileges) k = privGet hp.privileges k := by
  intro rows
  induction rows with
  | nil => intro hp; rfl
  | cons r rest ih =>
    intro hp
    rw [List.foldl_cons, ih]
    rw [hostPermStep_privileges]
    by_cases hid : r.1 = "Host" ∨ r.1 = "Db"
    · rw [if_pos hid]
    · rw [if_neg hid, privGet_privSet]
      have : k ≠ r.1 := by
        rcases hk with h | h <;> subst h <;> intro he <;> exact hid (by simp [he.symm])
      rw [if_neg this]

example (s t u : String) : s ++ t ++ u = s ++ (t ++ u) := by rw [String.append_assoc]
example (s : String) : s ++ "" = s := by rw [String.append_empty]
example (s : String) (l : List String) : String.join (s :: l) = s ++ String.join l := by
  apply String.toList_inj.mp
  simp [String.toList]
example : String.join [] = "" := rfl

/-- Claim C4: the password checksum is a deterministic function of the
password string — two constructions whose Password field carries the same
value produce the same `crc64` checksum — and an input with no field named
Password yields checksum 0 and a rendering that says NoPassword. -/
theorem newUserPermission_password_checksum (rows1 rows2 rows : List (String × String))
    (p : String)
    (h1 : lastField rows1 "Password" = some p)
    (h2 : lastField rows2 "Password" = some p)
    (hno : "Password" ∉ rows.map Prod.fst) :
    ((NewUserPermission rows1).passwordChecksum = crc64 p
      ∧ (NewUserPermission rows2).passwordChecksum = crc64 p
      ∧ (NewUserPermission rows1).passwordChecksum
          = (NewUserPermission rows2).passwordChecksum)
    ∧ ((NewUserPermission rows).passwordChecksum = 0
      ∧ UserPermissionString (NewUserPermission rows)
          = "UserPermission " ++ "NoPassword"
            ++ printPrivileges (NewUserPermission rows).privileges) := by
  have e1 : (NewUserPermission rows1).passwordChecksum = crc64 p := by
    unfold NewUserPermission
    rw [foldl_userPermStep_checksum, h1]; rfl
  have e2 : (NewUserPermission rows2).passwordChecksum = crc64 p := by
    unfold NewUserPermission
    rw [foldl_userPermStep_checksum, h2]; rfl
  have e0 : (NewUserPermission rows).passwordChecksum = 0 := by
    unfold NewUserPermission
    rw [foldl_userPermStep_checksum, lastField_eq_none_of_not_mem hno]; rfl
  refine ⟨⟨e1, e2, e1.trans e2.symm⟩, e0, ?_⟩
  unfold UserPermissionString
  rw [if_pos e0]

theorem newUserPermission_password_checksum_witness :
    (lastField exRowsP1 "Password" = some "secret"
      ∧ lastField exRowsP2 "Password" = some "secret"
      ∧ "Password" ∉ exRowsNoP.map Prod.fst)
    ∧ (((NewUserPermission exRowsP1).passwordChecksum = crc64 "secret"
      ∧ (NewUserPermission exRowsP2).passwordChecksum = crc64 "secret"
      ∧ (NewUserPermission exRowsP1).passwordChecksum
          = (NewUserPermission exRowsP2).passwordChecksum)
    ∧ ((NewUserPermission exRowsNoP).passwordChecksum = 0
      ∧ UserPermissionString (NewUserPermission exRowsNoP)
          = "UserPermission " ++ "NoPassword"
            ++ printPrivileges (NewUserPermission exRowsNoP).privileges)) :=
  ⟨⟨by decide, by decide, by decide⟩,
   newUserPermission_password_checksum exRowsP1 exRowsP2 exRowsNoP "secret"
     (by decide) (by decide) (by decide)⟩

/-- Claim C8: for every input field/value sequence, the constructed
entry's privilege map never contains that kind's identity field names as
keys (Host/User/Password for user entries, Host/Db/User for db entries,
Host/Db for host entries), while every other field name present in the
input appears in the privilege map bound to its value. -/
theorem newPermission_identity_not_in_privileges
    (rowsU rowsD rowsH : List (String × String)) :
    ("Host" ∉ (NewUserPermission rowsU).privileges.map Prod.fst
      ∧ "User" ∉ (NewUserPermission rowsU).privileges.map Prod.fst
      ∧ "Password" ∉ (NewUserPermission rowsU).privileges.map Prod.fst
      ∧ (∀ k, k ≠ "Host" → k ≠ "User" → k ≠ "Password" → k ∈ rowsU.map Prod.fst →
          ∃ v, (k, v) ∈ rowsU
            ∧ privGet (NewUserPermission rowsU).privileges k = some v))
    ∧ ("Host" ∉ (NewDbPermission rowsD).privileges.map Prod.fst
      ∧ "Db" ∉ (NewDbPermission rowsD).privileges.map Prod.fst
      ∧ "User" ∉ (NewDbPermission rowsD).privileges.map Prod.fst
      ∧ (∀ k, k ≠ "Host" → k ≠ "Db" → k ≠ "User" → k ∈ rowsD.map Prod.fst →
          ∃ v, (k, v) ∈ rowsD
            ∧ privGet (NewDbPermission rowsD).privileges k = some v))
    ∧ ("Host" ∉ (NewHostPermission rowsH).privileges.map Prod.fst
      ∧ "Db" ∉ (NewHostPermission rowsH).privileges.map Prod.fst
      ∧ (∀ k, k ≠ "Host" → k ≠ "Db" → k ∈ rowsH.map Prod.fst →
          ∃ v, (k, v) ∈ rowsH
            ∧ privGet (NewHostPermission rowsH).privileges k = some v)) := by
  refine ⟨⟨?_, ?_, ?_, ?_⟩, ⟨?_, ?_, ?_, ?_⟩, ⟨?_, ?_, ?_⟩⟩
  · exact (privGet_eq_none_iff _ _).mp
      (by unfold NewUserPermission; rw [foldl_userPermStep_privGet_id _ (Or.inl rfl)]; rfl)
  · exact (privGet_eq_none_iff _ _).mp
      (by unfold NewUserPermission
          rw [foldl_userPermStep_privGet_id _ (Or.inr (Or.inl rfl))]; rfl)
  · exact (privGet_eq_none_iff _ _).mp
      (by unfold NewUserPermission
          rw [foldl_userPermStep_privGet_id _ (Or.inr (Or.inr rfl))]; rfl)
  · intro k hk1 hk2 hk3 hmem
    obtain ⟨v, hv⟩ := lastField_isSome_of_mem hmem
    refine ⟨v, lastField_mem hv, ?_⟩
    unfold NewUserPermission
    rw [foldl_userPermStep_privGet k hk1 hk2 hk3, hv]; rfl
  · exact (privGet_eq_none_iff _ _).mp
      (by unfold NewDbPermission; rw [foldl_dbPermStep_privGet_id _ (Or.inl rfl)]; rfl)
  · exact (privGet_eq_none_iff _ _).mp
      (by unfold NewDbPermission
          rw [foldl_dbPermStep_privGet_id _ (Or.inr (Or.inl rfl))]; rfl)
  · exact (privGet_eq_none_iff _ _).mp
      (by unfold NewDbPermission
          rw [foldl_dbPermStep_privGet_id _ (Or.inr (Or.inr rfl))]; rfl)
  · intro k hk1 hk2 hk3 hmem
    obtain ⟨v, hv⟩ := lastField_isSome_of_mem hmem
    refine ⟨v, lastField_mem hv, ?_⟩
    unfold NewDbPermission
    rw [foldl_dbPermStep_privGet k hk1 hk2 hk3, hv]; rfl
  · exact (privGet_eq_none_iff _ _).mp
      (by unfold NewHostPermission; rw [foldl_hostPermStep_privGet_id _ (Or.inl rfl)]; rfl)
  · exact (privGet_eq_none_iff _ _).mp
      (by unfold NewHostPermission
          rw [foldl_hostPermStep_privGet_id _ (Or.inr rfl)]; rfl)
  · intro k hk1 hk2 hmem
    obtain ⟨v, hv⟩ := lastField_isSome_of_mem hmem
    refine ⟨v, lastField_mem hv, ?_⟩
    unfold NewHostPermission
    rw [foldl_hostPermStep_privGet k hk1 hk2, hv]; rfl

theorem newPermission_identity_not_in_privileges_witness :
    ("Host" ∉ (NewUserPermission exRowsU).privileges.map Prod.fst
      ∧ "User" ∉ (NewUserPermission exRowsU).privileges.map Prod.fst
      ∧ "Password" ∉ (NewUserPermission exRowsU).privileges.map Prod.fst
      ∧ ∃ v, ("Select_priv", v) ∈ exRowsU
          ∧ privGet (NewUserPermission exRowsU).privileges "Select_priv" = some v)
    ∧ ("Host" ∉ (NewDbPermission exRowsD).privileges.map Prod.fst
      ∧ "Db" ∉ (NewDbPermission exRowsD).privileges.map Prod.fst
      ∧ "User" ∉ (NewDbPermission exRowsD).privileges.map Prod.fst
      ∧ ∃ v, ("Insert_priv", v) ∈ exRowsD
          ∧ privGet (NewDbPermission exRowsD).privileges "Insert_priv" = some v)
    ∧ ("Host" ∉ (NewHostPermission exRowsH).privileges.map Prod.fst
      ∧ "Db" ∉ (NewHostPermission exRowsH).privileges.map Prod.fst
      ∧ ∃ v, ("Create_priv", v) ∈ exRowsH
          ∧ privGet (NewHostPermission exRowsH).privileges "Create_priv" = some v) := by
  obtain ⟨⟨u1, u2, u3, u4⟩, ⟨d1, d2, d3, d4⟩, ⟨g1, g2, g3⟩⟩ :=
    newPermission_identity_not_in_privileges exRowsU exRowsD exRowsH
  exact ⟨⟨u1, u2, u3, u4 "Select_priv" (by decide) (by decide) (by decide) (by decide)⟩,
    ⟨d1, d2, d3, d4 "Insert_priv" (by decide) (by decide) (by decide) (by decide)⟩,
    ⟨g1, g2, g3 "Create_priv" (by decide) (by decide) (by decide)⟩⟩

/-! ## Rendering lemmas -/

theorem strJoin_cons (s : String) (l : List String) :
    String.join (s :: l) = s ++ String.join l := by
  apply String.toList_inj.mp
  simp [String.toList]

theorem foldl_render_eq_join {α : Type} (g : α → String) :
    ∀ (ks : List α) (init : String),
    ks.foldl (fun result k => result ++ g k) init = init ++ String.join (ks.map g)
  | [], init => by simp [String.join, String.append_empty]
  | x :: ks, init => by
    rw [List.foldl_cons, foldl_render_eq_join g ks (init ++ g x), List.map_cons,
      strJoin_cons, ← String.append_assoc]

theorem printPrivileges_eq_spec (priv : List (String × String)) :
    printPrivileges priv = printPrivilegesSpec priv := by
  unfold printPrivileges printPrivilegesSpec
  have hfun : (fun result k => result ++ " " ++ k ++ "(" ++ (privGet priv k).getD "" ++ ")")
      = fun result k => result ++ (" " ++ k ++ "(" ++ (privGet priv k).getD "" ++ ")") := by
    funext result k
    simp [String.append_assoc]
  rw [hfun, foldl_render_eq_join, String.empty_append]

theorem foldl_entry_eq_join (es : List Entry) (init : String) :
    es.foldl (fun result e => result ++ "  " ++ e.1 ++ ": " ++ e.2 ++ "\n") init
      = init ++ String.join (es.map (fun e => "  " ++ e.1 ++ ": " ++ e.2 ++ "\n")) := by
  have hfun : (fun result (e : Entry) => result ++ "  " ++ e.1 ++ ": " ++ e.2 ++ "\n")
      = fun result e => result ++ ("  " ++ e.1 ++ ": " ++ e.2 ++ "\n") := by
    funext result e
    simp [String.append_assoc]
  rw [hfun, foldl_render_eq_join]

theorem printPermissions_eq_spec (name : String) (es : List Entry) :
    printPermissions name es = printPermissionsSpec name es := by
  unfold printPermissions printPermissionsSpec
  rw [foldl_entry_eq_join]

theorem userPermissionString_eq_spec (u : UserPermission) :
    UserPermissionString u = userLabelSpec u ++ printPrivilegesSpec u.privileges := by
  unfold UserPermissionString userLabelSpec
  rw [printPrivileges_eq_spec]

theorem dbPermissionString_eq_spec (d : DbPermission) :
    DbPermissionString d = "DbPermission" ++ printPrivilegesSpec d.privileges := by
  unfold DbPermissionString
  rw [printPrivileges_eq_spec]

theorem hostPermissionString_eq_spec (h : HostPermission) :
    HostPermissionString h = "HostPermission" ++ printPrivilegesSpec h.privileges := by
  unfold HostPermissionString
  rw [printPrivileges_eq_spec]

/-- Claim C9: `PermissionsString` renders, for each kind in the fixed
order User, Db, Host, the kind header followed by one line per entry in
list order, each entry rendered as its type label followed by its
privileges as space-separated name-value pairs sorted ascending by
privilege name; being a pure function of its input, the output is
byte-identical across calls on the same input. -/
theorem permissionsString_matches_spec (p : Permissions) :
    PermissionsString p = permissionsStringSpec p
    ∧ (∀ priv : List (String × String),
        List.Sorted (· ≤ ·) (sortStrings (priv.map Prod.fst))
        ∧ (sortStrings (priv.map Prod.fst)).Perm (priv.map Prod.fst)) := by
  constructor
  · have hu : p.userPermissions.map
          (fun u => (UserPermissionPrimaryKey u, UserPermissionString u))
        = p.userPermissions.map (fun u =>
            (UserPermissionPrimaryKey u, userLabelSpec u ++ printPrivilegesSpec u.privileges)) :=
      List.map_congr_left fun u _ => by rw [userPermissionString_eq_spec]
    have hd : p.dbPermissions.map
          (fun d => (DbPermissionPrimaryKey d, DbPermissionString d))
        = p.dbPermissions.map (fun d =>
            (DbPermissionPrimaryKey d, "DbPermission" ++ printPrivilegesSpec d.privileges)) :=
      List.map_congr_left fun d _ => by rw [dbPermissionString_eq_spec]
    have hh : p.hostPermissions.map
          (fun h => (HostPermissionPrimaryKey h, HostPermissionString h))
        = p.hostPermissions.map (fun h =>
            (HostPermissionPrimaryKey h, "HostPermission" ++ printPrivilegesSpec h.privileges)) :=
      List.map_congr_left fun h _ => by rw [hostPermissionString_eq_spec]
    unfold PermissionsString permissionsStringSpec userEntries dbEntries hostEntries
    rw [printPermissions_eq_spec, printPermissions_eq_spec, printPermissions_eq_spec,
      hu, hd, hh]
  · intro priv
    exact ⟨List.sorted_insertionSort _ _, List.perm_insertionSort _ _⟩

/-- Claim C10: the primary-key functions are not injective on
identities: identity fields are joined with an unescaped colon, so for
each of the three kinds two entries with different identity fields can
share one primary key. -/
theorem primaryKey_collision :
    ((⟨"h:a", "b", 0, []⟩ : UserPermission).host ≠ (⟨"h", "a:b", 0, []⟩ : UserPermission).host
      ∧ UserPermissionPrimaryKey ⟨"h:a", "b", 0, []⟩
          = UserPermissionPrimaryKey ⟨"h", "a:b", 0, []⟩)
    ∧ ((⟨"h:a", "b", "c", []⟩ : DbPermission).host ≠ (⟨"h", "a:b", "c", []⟩ : DbPermission).host
      ∧ DbPermissionPrimaryKey ⟨"h:a", "b", "c", []⟩
          = DbPermissionPrimaryKey ⟨"h", "a:b", "c", []⟩)
    ∧ ((⟨"h:a", "b", []⟩ : HostPermission).host ≠ (⟨"h", "a:b", []⟩ : HostPermission).host
      ∧ HostPermissionPrimaryKey ⟨"h:a", "b", []⟩
          = HostPermissionPrimaryKey ⟨"h", "a:b", []⟩) := by
  refine ⟨⟨by decide, by decide⟩, ⟨by decide, by decide⟩, ⟨by decide, by decide⟩⟩

/-! ## Serving-graph lemmas -/

theorem zfind_zerase (ns : List (ZPath × String)) (p : ZPath) :
    zfind (zerase ns p) p = none := by
  induction ns with
  | nil => rfl
  | cons e rest ih =>
    obtain ⟨q, d⟩ := e
    by_cases h : q = p <;> simp_all [zerase, zfind, List.filter_cons, bne_iff_ne]

theorem parseBody_replicate_x (n : Nat) :
    parseBody 'x' (List.replicate n 'x' ++ ['\x7d']) = some n := by
  induction n with
  | zero => rfl
  | succ n ih => simp [List.replicate_succ, parseBody, ih]

theorem parseBody_replicate_v (n : Nat) :
    parseBody 'v' (List.replicate n 'v' ++ ['\x7d']) = some n := by
  induction n with
  | zero => rfl
  | succ n ih => simp [List.replicate_succ, parseBody, ih]

theorem srvKeyspaceUnmarshal_marshal (sk : SrvKeyspace) :
    srvKeyspaceUnmarshal (srvKeyspaceMarshal sk) = some sk := by
  unfold srvKeyspaceUnmarshal srvKeyspaceMarshal
  simp [parseBody_replicate_x]

theorem srvVSchemaUnmarshal_marshal (sv : SrvVSchema) :
    srvVSchemaUnmarshal (srvVSchemaMarshal sv) = some sv := by
  unfold srvVSchemaUnmarshal srvVSchemaMarshal
  simp [parseBody_replicate_v]

theorem srvKeyspaceMarshal_length (sk : SrvKeyspace) :
    (srvKeyspaceMarshal sk).length ≠ 0 := by
  simp [srvKeyspaceMarshal, String.length]

theorem srvVSchemaMarshal_length (sv : SrvVSchema) :
    (srvVSchemaMarshal sv).length ≠ 0 := by
  simp [srvVSchemaMarshal, String.length]

theorem updateSrvKeyspace_ok (c c2 : ZConn) (cell keyspace : String) (sk : SrvKeyspace)
    (h : UpdateSrvKeyspace c cell keyspace sk = .ok c2) :
    zfind c2.nodes (zkPathForSrvKeyspace cell keyspace) = some (srvKeyspaceMarshal sk)
    ∧ c2.failing = c.failing
    ∧ zkPathForSrvKeyspace cell keyspace ∉ c.failing := by
  unfold UpdateSrvKeyspace at h
  simp only [zkSet, zkCreateRecursive] at h
  by_cases hf : zkPathForSrvKeyspace cell keyspace ∈ c.failing
  · simp only [if_pos hf] at h
    simp at h
  · simp only [if_neg hf] at h
    cases hz : zfind c.nodes (zkPathForSrvKeyspace cell keyspace) with
    | some d0 =>
      simp only [hz] at h
      simp at h
      rw [← h]
      exact ⟨by simp [zfind], rfl, hf⟩
    | none =>
      simp only [hz] at h
      simp at h
      rw [← h]
      exact ⟨by simp [zfind], rfl, hf⟩

theorem deleteSrvKeyspace_ok (c c2 : ZConn) (cell keyspace : String)
    (h : DeleteSrvKeyspace c cell keyspace = .ok c2) :
    zfind c2.nodes (zkPathForSrvKeyspace cell keyspace) = none
    ∧ c2.failing = c.failing
    ∧ zkPathForSrvKeyspace cell keyspace ∉ c.failing := by
  unfold DeleteSrvKeyspace at h
  simp only [zkDelete] at h
  by_cases hf : zkPathForSrvKeyspace cell keyspace ∈ c.failing
  · simp only [if_pos hf] at h
    simp at h
  · simp only [if_neg hf] at h
    cases hz : zfind c.nodes (zkPathForSrvKeyspace cell keyspace) with
    | some d0 =>
      simp only [hz] at h
      simp at h
      rw [← h]
      exact ⟨zfind_zerase c.nodes _, rfl, hf⟩
    | none =>
      simp only [hz] at h
      simp at h

theorem str_length_ne_zero {s : String} (h : s ≠ "") : s.length ≠ 0 := by
  intro h0
  apply h
  cases s with
  | mk data =>
    simp [String.length] at h0
    simp [h0]

/-- Claim C5: on a path whose round-trips succeed, `GetSrvKeyspace`
returns the distinguished not-found error both when the node is absent
and when its stored value is the empty string, a deserialization error
distinct from not-found when the stored value is non-empty but fails to
deserialize, and the deserialized descriptor otherwise; likewise
`GetSrvVSchema` per cell. -/
theorem getSrv_error_taxonomy (c : ZConn) (cell keyspace : String)
    (hf : zkPathForSrvKeyspace cell keyspace ∉ c.failing)
    (hfv : zkPathForSrvVSchema cell ∉ c.failing) :
    SrvGetSpec c cell keyspace := by
  refine ⟨?_, ?_, ?_, ?_, ?_, ?_, ?_, ?_⟩
  · intro h
    simp [GetSrvKeyspace, zkGet, if_neg hf, h, convertError]
  · intro h
    simp [GetSrvKeyspace, zkGet, if_neg hf, h]
  · intro d hd hne hun
    have hlen : ¬d.length = 0 := str_length_ne_zero hne
    constructor
    · simp [GetSrvKeyspace, zkGet, if_neg hf, hd, hlen, hun]
    · simp
  · intro d sk hd hne hun
    have hlen : ¬d.length = 0 := str_length_ne_zero hne
    simp [GetSrvKeyspace, zkGet, if_neg hf, hd, hlen, hun]
  · intro h
    simp [GetSrvVSchema, zkGet, if_neg hfv, h, convertError]
  · intro h
    simp [GetSrvVSchema, zkGet, if_neg hfv, h]
  · intro d hd hne hun
    have hlen : ¬d.length = 0 := str_length_ne_zero hne
    constructor
    · simp [GetSrvVSchema, zkGet, if_neg hfv, hd, hlen, hun]
    · simp
  · intro d sv hd hne hun
    have hlen : ¬d.length = 0 := str_length_ne_zero hne
    simp [GetSrvVSchema, zkGet, if_neg hfv, hd, hlen, hun]

theorem getSrv_error_taxonomy_witness :
    (zkPathForSrvKeyspace "c1" "empty" ∉ exConnTax.failing
      ∧ zkPathForSrvVSchema "c1" ∉ exConnTax.failing)
    ∧ SrvGetSpec exConnTax "c1" "empty" :=
  ⟨⟨by decide, by decide⟩,
   getSrv_error_taxonomy exConnTax "c1" "empty" (by decide) (by decide)⟩

/-- Claim C6: `GetSrvKeyspaceNames` returns an empty result with no
error when the per-cell keyspace namespace node does not exist, the child
names sorted ascending with no error when it does, and surfaces any other
failure of the children call as an error. -/
theorem getSrvKeyspaceNames_spec (c : ZConn) (cell : String) :
    (zkPathForSrvKeyspaces cell ∉ c.failing →
      zfind c.nodes (zkPathForSrvKeyspaces cell) = none →
      GetSrvKeyspaceNames c cell = .ok [])
    ∧ (∀ d, zkPathForSrvKeyspaces cell ∉ c.failing →
      zfind c.nodes (zkPathForSrvKeyspaces cell) = some d →
      GetSrvKeyspaceNames c cell
          = .ok (sortStrings (c.nodes.filterMap
              (fun e => stripChild (zkPathForSrvKeyspaces cell) e.1)))
        ∧ List.Sorted (· ≤ ·) (sortStrings (c.nodes.filterMap
              (fun e => stripChild (zkPathForSrvKeyspaces cell) e.1)))
        ∧ (sortStrings (c.nodes.filterMap
              (fun e => stripChild (zkPathForSrvKeyspaces cell) e.1))).Perm
            (c.nodes.filterMap (fun e => stripChild (zkPathForSrvKeyspaces cell) e.1)))
    ∧ (zkPathForSrvKeyspaces cell ∈ c.failing →
      GetSrvKeyspaceNames c cell = .error (.other "transport")) := by
  refine ⟨?_, ?_, ?_⟩
  · intro hf h
    simp [GetSrvKeyspaceNames, zkChildren, if_neg hf, h]
  · intro d hf h
    refine ⟨?_, List.sorted_insertionSort _ _, List.perm_insertionSort _ _⟩
    simp [GetSrvKeyspaceNames, zkChildren, if_neg hf, h]
  · intro hf
    simp [GetSrvKeyspaceNames, zkChildren, if_pos hf, convertError]

theorem getSrvKeyspaceNames_spec_witness :
    GetSrvKeyspaceNames exConnEmpty "c1" = .ok []
    ∧ (GetSrvKeyspaceNames exConnNames "c1"
        = .ok (sortStrings (exConnNames.nodes.filterMap
            (fun e => stripChild (zkPathForSrvKeyspaces "c1") e.1)))
      ∧ GetSrvKeyspaceNames exConnNames "c1" = .ok ["a", "b", "c"])
    ∧ GetSrvKeyspaceNames exConnDown "c1" = .error (.other "transport") :=
  ⟨(getSrvKeyspaceNames_spec exConnEmpty "c1").1 (by decide) (by decide),
   ⟨((getSrvKeyspaceNames_spec exConnNames "c1").2.1 "" (by decide) (by decide)).1,
    by rfl⟩,
   (getSrvKeyspaceNames_spec exConnDown "c1").2.2 (by decide)⟩

/-- Claim C7: over the coordination-service model, `GetSrvKeyspace` on
a never-created (cell, keyspace) is the not-found error; after a
successful `UpdateSrvKeyspace` (direct set first, recursive create
exactly when the set reports the node absent) a subsequent get returns a
descriptor equal to the one written; after a successful
`DeleteSrvKeyspace` a subsequent get is the not-found error again. -/
theorem srvKeyspace_crud_roundtrip (c : ZConn) (cell keyspace : String) (sk : SrvKeyspace) :
    (zkPathForSrvKeyspace cell keyspace ∉ c.failing →
      zfind c.nodes (zkPathForSrvKeyspace cell keyspace) = none →
      GetSrvKeyspace c cell keyspace = .error .noNode)
    ∧ (∀ c2, UpdateSrvKeyspace c cell keyspace sk = .ok c2 →
        GetSrvKeyspace c2 cell keyspace = .ok sk)
    ∧ (∀ c2, DeleteSrvKeyspace c cell keyspace = .ok c2 →
        GetSrvKeyspace c2 cell keyspace = .error .noNode) := by
  refine ⟨?_, ?_, ?_⟩
  · intro hf h
    simp [GetSrvKeyspace, zkGet, if_neg hf, h, convertError]
  · intro c2 h
    obtain ⟨hz, hfeq, hnf⟩ := updateSrvKeyspace_ok c c2 cell keyspace sk h
    have hnf2 : zkPathForSrvKeyspace cell keyspace ∉ c2.failing := by
      rw [hfeq]; exact hnf
    have hlen : ¬(srvKeyspaceMarshal sk).length = 0 := srvKeyspaceMarshal_length sk
    simp [GetSrvKeyspace, zkGet, if_neg hnf2, hz, hlen, srvKeyspaceUnmarshal_marshal]
  · intro c2 h
    obtain ⟨hz, hfeq, hnf⟩ := deleteSrvKeyspace_ok c c2 cell keyspace h
    have hnf2 : zkPathForSrvKeyspace cell keyspace ∉ c2.failing := by
      rw [hfeq]; exact hnf
    simp [GetSrvKeyspace, zkGet, if_neg hnf2, hz, convertError]

theorem srvKeyspace_crud_roundtrip_witness :
    (zkPathForSrvKeyspace "c1" "ks" ∉ exConnEmpty.failing
      ∧ zfind exConnEmpty.nodes (zkPathForSrvKeyspace "c1" "ks") = none
      ∧ UpdateSrvKeyspace exConnEmpty "c1" "ks" ⟨2⟩ = .ok exConnUpd
      ∧ DeleteSrvKeyspace exConnUpd "c1" "ks" = .ok exConnDel)
    ∧ (GetSrvKeyspace exConnEmpty "c1" "ks" = .error .noNode
      ∧ GetSrvKeyspace exConnUpd "c1" "ks" = .ok ⟨2⟩
      ∧ GetSrvKeyspace exConnDel "c1" "ks" = .error .noNode) := by
  have t1 := srvKeyspace_crud_roundtrip exConnEmpty "c1" "ks" (⟨2⟩ : SrvKeyspace)
  have t2 := srvKeyspace_crud_roundtrip exConnUpd "c1" "ks" (⟨2⟩ : SrvKeyspace)
  exact ⟨⟨by decide, by decide, by rfl, by rfl⟩,
    t1.1 (by decide) (by decide),
    t1.2.1 exConnUpd (by rfl),
    t2.2.2 exConnDel (by rfl)⟩
